import Mathlib

/-!
Verification of `src/meetup_import.py` against its natural-language
specification.  The Python source is shallowly embedded: strings are
`List Char` (wrapped in `String` at the interfaces), Python exceptions
become an explicit error type, and each embedded definition mirrors one
Python function of the repository.
-/

namespace MeetupImport

/-- The Python exceptions that the embedded code can raise. -/
inductive PyError where
  | attributeError      -- e.g. `None.strip()` when a dict key is missing
  | unboundLocalError   -- a local variable referenced before assignment
  | typeError           -- `json.dump` on a non-serializable object
deriving DecidableEq, Repr

/-- Python `str.strip` whitespace test, restricted to the ASCII whitespace
characters that occur in this repository's data (space, tab, LF, CR). -/
def isPyWs (c : Char) : Bool :=
  c == ' ' || c == '\t' || c == '\n' || c == '\r'

/-- Python `str.lstrip()` on the character list of a string. -/
def lstripChars (l : List Char) : List Char := l.dropWhile isPyWs

/-- Python `str.strip()` on the character list of a string. -/
def stripChars (l : List Char) : List Char :=
  ((l.dropWhile isPyWs).reverse.dropWhile isPyWs).reverse

/-- Python `str.strip()` at the `String` interface. -/
def pyStrip (s : String) : String := ⟨stripChars s.data⟩

-- ===================== Persistence merger (lines 219-282) =====================

/-- A persisted or freshly built event record, as the merger sees it: a dict
whose `title` and `date` entries may be absent (`dict.get` then yields `None`,
modelled by `none`).  `descr` stands for all the remaining fields, which the
identity key never reads. -/
structure EventRec where
  title : Option String
  date : Option String
  descr : String
deriving DecidableEq, Repr

/-- Embeds `get_event_key` (lines 220-221):
`f"{event.get('title').strip()} - {event.get('date')}"`.
When `title` is absent, `event.get('title')` is `None` and `.strip()` raises
`AttributeError`; a missing `date` renders as the string `"None"` inside the
f-string. -/
def get_event_key (e : EventRec) : Except PyError String :=
  match e.title with
  | none => .error .attributeError
  | some t => .ok (pyStrip t ++ " - " ++ e.date.getD "None")

/-- Embeds `get_existing_event_keys` (lines 224-225):
`{get_event_key(e) for e in events}`.  The comprehension evaluates the key of
each record in order and the first exception propagates; the resulting set is
only ever used for membership tests and insertion, so it is modelled as the
list of keys (membership-equivalent). -/
def get_existing_event_keys : List EventRec → Except PyError (List String)
  | [] => .ok []
  | e :: es =>
    match get_event_key e with
    | .error err => .error err
    | .ok k =>
      match get_existing_event_keys es with
      | .error err => .error err
      | .ok ks => .ok (k :: ks)

/-- Embeds the dedup loop of `fetch_events` (lines 266-276): for each upcoming
record in order, compute its key; if it is not in the seen set, accept the
record and add the key, otherwise skip it.  Inserting into the seen set is
modelled by consing onto the key list (membership-equivalent to `set.add`). -/
def mergeLoop (keys : List String) : List EventRec → Except PyError (List EventRec)
  | [] => .ok []
  | e :: es =>
    match get_event_key e with
    | .error err => .error err
    | .ok k =>
      if k ∈ keys then mergeLoop keys es
      else
        match mergeLoop (k :: keys) es with
        | .error err => .error err
        | .ok acc => .ok (e :: acc)

/-- Embeds the merge portion of `fetch_events` (lines 261-276): collect the
keys of the existing store, then run the dedup loop over the upcoming records
(already passed through `process_meetup_data`, so the model records stand for
the formatted dicts).  The result is the `added_events` list. -/
def fetch_events_merge (existing upcoming : List EventRec) :
    Except PyError (List EventRec) :=
  match get_existing_event_keys existing with
  | .error err => .error err
  | .ok keys => mergeLoop keys upcoming

/-- The store contents after a run: `append_events_to_json_file` (line 244)
extends the existing list with the accepted records and writes the result. -/
def storeAfterRun (existing added : List EventRec) : List EventRec :=
  existing ++ added

-- Spec-side merge, for the refinement comparison of C1.

/-- The spec's identity key `"{title.strip()} - {date}"` (spec section 3),
written as a total function; it agrees with `get_event_key` whenever the
title is present. -/
def specKey (e : EventRec) : String :=
  pyStrip (e.title.getD "") ++ " - " ++ e.date.getD "None"

/-- Modelled from the spec's words (section 4.6, step 2): for each new record
in order, accept it iff its key is in neither the existing keys nor the keys
of the records accepted earlier in the same batch. -/
def specMergeAux (exKeys : List String) (accEarlier : List EventRec) :
    List EventRec → List EventRec
  | [] => []
  | e :: es =>
    if specKey e ∈ exKeys ∨ specKey e ∈ accEarlier.map specKey then
      specMergeAux exKeys accEarlier es
    else
      e :: specMergeAux exKeys (accEarlier ++ [e]) es

/-- Modelled from the spec's words (section 4.6): compute the key of every
existing record, then filter the new batch as in `specMergeAux`. -/
def specMerge (existing upcoming : List EventRec) : List EventRec :=
  specMergeAux (existing.map specKey) [] upcoming

-- Helper lemmas for the merge claims.

lemma get_event_key_of_isSome {e : EventRec} (h : e.title.isSome) :
    get_event_key e = .ok (specKey e) := by
  cases ht : e.title with
  | none => rw [ht] at h; simp [Option.isSome] at h
  | some t => simp [get_event_key, specKey, ht]

lemma get_existing_event_keys_of_isSome :
    ∀ (l : List EventRec), (∀ e ∈ l, e.title.isSome) →
      get_existing_event_keys l = .ok (l.map specKey)
  | [], _ => rfl
  | e :: es, h => by
    have he : get_event_key e = .ok (specKey e) :=
      get_event_key_of_isSome (h e (by simp))
    have ih := get_existing_event_keys_of_isSome es (fun x hx => h x (by simp [hx]))
    simp [get_existing_event_keys, he, ih]

lemma mergeLoop_eq_spec :
    ∀ (upcoming : List EventRec) (keys exKeys : List String) (acc : List EventRec),
      (∀ e ∈ upcoming, e.title.isSome) →
      (∀ k, k ∈ keys ↔ (k ∈ exKeys ∨ k ∈ acc.map specKey)) →
      mergeLoop keys upcoming = .ok (specMergeAux exKeys acc upcoming)
  | [], _, _, _, _, _ => rfl
  | e :: es, keys, exKeys, acc, h, hmem => by
    have he : get_event_key e = .ok (specKey e) :=
      get_event_key_of_isSome (h e (by simp))
    have htail : ∀ x ∈ es, x.title.isSome := fun x hx => h x (by simp [hx])
    by_cases hk : specKey e ∈ keys
    · have hcond : specKey e ∈ exKeys ∨ specKey e ∈ acc.map specKey :=
        (hmem (specKey e)).mp hk
      have ih := mergeLoop_eq_spec es keys exKeys acc htail hmem
      simp only [mergeLoop, he]
      rw [if_pos hk, ih]
      simp only [specMergeAux]
      rw [if_pos hcond]
    · have hcond : ¬ (specKey e ∈ exKeys ∨ specKey e ∈ acc.map specKey) :=
        fun hc => hk ((hmem (specKey e)).mpr hc)
      have hmem' : ∀ k, k ∈ (specKey e :: keys) ↔
          (k ∈ exKeys ∨ k ∈ (acc ++ [e]).map specKey) := by
        intro k
        simp only [List.mem_cons, hmem k, List.map_append, List.mem_append,
          List.map_cons, List.map_nil, List.mem_singleton]
        tauto
      have ih := mergeLoop_eq_spec es (specKey e :: keys) exKeys (acc ++ [e]) htail hmem'
      simp only [mergeLoop, he]
      rw [if_neg hk, ih]
      simp only [specMergeAux]
      rw [if_neg hcond]

lemma specMergeAux_sublist (exKeys : List String) :
    ∀ (upcoming : List EventRec) (acc : List EventRec),
      (specMergeAux exKeys acc upcoming).Sublist upcoming
  | [], _ => List.Sublist.refl _
  | e :: es, acc => by
    simp only [specMergeAux]
    by_cases hc : specKey e ∈ exKeys ∨ specKey e ∈ acc.map specKey
    · rw [if_pos hc]
      exact (specMergeAux_sublist exKeys es acc).cons e
    · rw [if_neg hc]
      exact (specMergeAux_sublist exKeys es (acc ++ [e])).cons₂ e

lemma fetch_events_merge_eq_spec (existing upcoming : List EventRec)
    (hex : ∀ e ∈ existing, e.title.isSome)
    (hup : ∀ e ∈ upcoming, e.title.isSome) :
    fetch_events_merge existing upcoming = .ok (specMerge existing upcoming) := by
  have hkeys := get_existing_event_keys_of_isSome existing hex
  have hloop := mergeLoop_eq_spec upcoming (existing.map specKey)
    (existing.map specKey) [] hup (by intro k; simp)
  simp [fetch_events_merge, hkeys, specMerge, hloop]

/-- Every key of the batch ends up covered: it was already among the existing
or earlier keys, or it is the key of an accepted record. -/
lemma specMergeAux_key_covered (exKeys : List String) :
    ∀ (upcoming : List EventRec) (acc : List EventRec), ∀ e ∈ upcoming,
      specKey e ∈ exKeys ∨ specKey e ∈ acc.map specKey ∨
        specKey e ∈ (specMergeAux exKeys acc upcoming).map specKey
  | [], _, e, he => by simp at he
  | x :: es, acc, e, he => by
    simp only [specMergeAux]
    by_cases hc : specKey x ∈ exKeys ∨ specKey x ∈ acc.map specKey
    · rw [if_pos hc]
      rcases (List.mem_cons.mp he) with heq | htail
      · subst heq
        rcases hc with h1 | h2
        · exact Or.inl h1
        · exact Or.inr (Or.inl h2)
      · exact specMergeAux_key_covered exKeys es acc e htail
    · rw [if_neg hc]
      rcases (List.mem_cons.mp he) with heq | htail
      · subst heq
        right; right
        rw [List.map_cons]
        exact List.mem_cons_self _ _
      · have ih := specMergeAux_key_covered exKeys es (acc ++ [x]) e htail
        rcases ih with h1 | h2 | h3
        · exact Or.inl h1
        · rw [List.map_append] at h2
          rcases List.mem_append.mp h2 with h2a | h2b
          · exact Or.inr (Or.inl h2a)
          · right; right
            simp only [List.map_cons, List.map_nil, List.mem_singleton] at h2b
            rw [List.map_cons]
            exact List.mem_cons.mpr (Or.inl h2b)
        · right; right
          rw [List.map_cons]
          exact List.mem_cons.mpr (Or.inr h3)

lemma mergeLoop_all_seen :
    ∀ (upcoming : List EventRec) (keys : List String),
      (∀ e ∈ upcoming, e.title.isSome ∧ specKey e ∈ keys) →
      mergeLoop keys upcoming = .ok []
  | [], _, _ => rfl
  | e :: es, keys, h => by
    obtain ⟨hsome, hkey⟩ := h e (by simp)
    have he : get_event_key e = .ok (specKey e) := get_event_key_of_isSome hsome
    have ih := mergeLoop_all_seen es keys (fun x hx => h x (by simp [hx]))
    simp [mergeLoop, he, hkey, ih]

-- ===================== Merge claims C1, C2, C10 =====================

/-- C1: the merge accepts a new record iff its identity key
`"{title.strip()} - {date}"` differs from the key of every existing record
and of every record accepted earlier in the same batch (this condition is
exactly `specMerge`, written from the spec's words); the accepted records
come back in input order (a sublist of the batch), and the store written
afterwards keeps the existing records unchanged, in place, as a prefix. -/
theorem merge_accept_characterization (existing upcoming : List EventRec)
    (hex : ∀ e ∈ existing, e.title.isSome)
    (hup : ∀ e ∈ upcoming, e.title.isSome) :
    fetch_events_merge existing upcoming = .ok (specMerge existing upcoming) ∧
    (specMerge existing upcoming).Sublist upcoming ∧
    (storeAfterRun existing (specMerge existing upcoming)).take existing.length
      = existing := by
  refine ⟨fetch_events_merge_eq_spec existing upcoming hex hup, ?_, ?_⟩
  · exact specMergeAux_sublist _ upcoming []
  · simp only [storeAfterRun]
    exact List.take_left existing (specMerge existing upcoming)

/-- Concrete instance of C1: an existing record "Talk A" on JAN 01; the batch
holds a record with the same title and date but different other fields
(skipped) and one with a different date (accepted). -/
def exRec : EventRec := ⟨some "Talk A", some "MON, JAN 01, 2024", "old talk"⟩
def dupRec : EventRec := ⟨some "Talk A", some "MON, JAN 01, 2024", "other fields"⟩
def freshRec : EventRec := ⟨some "Talk A", some "TUE, JAN 02, 2024", "other fields"⟩

theorem merge_accept_characterization_witness :
    (∀ e ∈ [exRec], e.title.isSome) ∧
    (∀ e ∈ [dupRec, freshRec], e.title.isSome) ∧
    specMerge [exRec] [dupRec, freshRec] = [freshRec] ∧
    (fetch_events_merge [exRec] [dupRec, freshRec]
        = .ok (specMerge [exRec] [dupRec, freshRec]) ∧
      (specMerge [exRec] [dupRec, freshRec]).Sublist [dupRec, freshRec] ∧
      (storeAfterRun [exRec] (specMerge [exRec] [dupRec, freshRec])).take 1
        = [exRec]) := by
  refine ⟨by decide, by decide, by decide, ?_⟩
  exact merge_accept_characterization [exRec] [dupRec, freshRec]
    (by decide) (by decide)

/-- C2: the merge is idempotent — running it again with the same batch
against the store produced by the first run accepts zero records. -/
theorem merge_idempotent (existing upcoming added : List EventRec)
    (hex : ∀ e ∈ existing, e.title.isSome)
    (hup : ∀ e ∈ upcoming, e.title.isSome)
    (h1 : fetch_events_merge existing upcoming = .ok added) :
    fetch_events_merge (storeAfterRun existing added) upcoming = .ok [] := by
  have hspec := fetch_events_merge_eq_spec existing upcoming hex hup
  rw [h1] at hspec
  have hadded : added = specMerge existing upcoming := by
    injection hspec
  subst hadded
  have hadd_some : ∀ e ∈ specMerge existing upcoming, e.title.isSome := by
    intro e he
    exact hup e ((specMergeAux_sublist _ upcoming []).mem he)
  have hall : ∀ e ∈ storeAfterRun existing (specMerge existing upcoming),
      e.title.isSome := by
    intro e he
    rcases List.mem_append.mp he with h | h
    · exact hex e h
    · exact hadd_some e h
  have hkeys := get_existing_event_keys_of_isSome _ hall
  have hcover : ∀ e ∈ upcoming,
      specKey e ∈ (storeAfterRun existing (specMerge existing upcoming)).map specKey := by
    intro e he
    have := specMergeAux_key_covered (existing.map specKey) upcoming [] e he
    rcases this with h | h | h
    · simp only [storeAfterRun, List.map_append, List.mem_append]
      exact Or.inl h
    · simp at h
    · simp only [storeAfterRun, List.map_append, List.mem_append]
      exact Or.inr h
  have hloop := mergeLoop_all_seen upcoming
    ((storeAfterRun existing (specMerge existing upcoming)).map specKey)
    (fun e he => ⟨hup e he, hcover e he⟩)
  simp [fetch_events_merge, hkeys, hloop]

theorem merge_idempotent_witness :
    (∀ e ∈ [exRec], e.title.isSome) ∧
    (∀ e ∈ [dupRec, freshRec], e.title.isSome) ∧
    fetch_events_merge [exRec] [dupRec, freshRec] = .ok [freshRec] ∧
    fetch_events_merge (storeAfterRun [exRec] [freshRec]) [dupRec, freshRec]
      = .ok [] := by
  refine ⟨by decide, by decide, by rfl, ?_⟩
  exact merge_idempotent [exRec] [dupRec, freshRec] [freshRec]
    (by decide) (by decide) (by rfl)

lemma get_existing_event_keys_error :
    ∀ (l : List EventRec), (∃ e ∈ l, e.title = none) →
      get_existing_event_keys l = .error .attributeError
  | [], h => by simp at h
  | x :: xs, h => by
    cases hx : x.title with
    | none => simp [get_existing_event_keys, get_event_key, hx]
    | some t =>
      obtain ⟨e, he, hnone⟩ := h
      rcases List.mem_cons.mp he with heq | htail
      · subst heq; rw [hx] at hnone; cases hnone
      · have ih := get_existing_event_keys_error xs ⟨e, htail, hnone⟩
        simp [get_existing_event_keys, get_event_key, hx, ih]

/-- C10: `get_event_key` is partial — on a record whose `title` entry is
absent (or `None`) it raises `AttributeError` instead of returning a key, so
collecting the keys of a store containing such a record fails, and with it
the whole merge. -/
theorem event_key_partial_missing_title (existing upcoming : List EventRec)
    (e : EventRec) (hmem : e ∈ existing) (hnone : e.title = none) :
    get_event_key e = .error .attributeError ∧
    get_existing_event_keys existing = .error .attributeError ∧
    fetch_events_merge existing upcoming = .error .attributeError := by
  have hkey : get_event_key e = .error .attributeError := by
    simp [get_event_key, hnone]
  have hkeys : get_existing_event_keys existing = .error .attributeError :=
    get_existing_event_keys_error existing ⟨e, hmem, hnone⟩
  exact ⟨hkey, hkeys, by simp [fetch_events_merge, hkeys]⟩

def badRec : EventRec := ⟨none, some "MON, JAN 01, 2024", "no title"⟩

theorem event_key_partial_missing_title_witness :
    badRec ∈ [exRec, badRec] ∧ badRec.title = none ∧
    (get_event_key badRec = .error .attributeError ∧
      get_existing_event_keys [exRec, badRec] = .error .attributeError ∧
      fetch_events_merge [exRec, badRec] [freshRec] = .error .attributeError) := by
  refine ⟨by decide, by decide, ?_⟩
  exact event_key_partial_missing_title [exRec, badRec] [freshRec] badRec
    (by decide) (by decide)

-- ===================== Name extractor (lines 44-96) =====================

/-- Python `str.splitlines`, restricted to the line breaks that occur in this
repository's data: LF, CR and CRLF.  As in Python, a trailing break produces
no empty final line. -/
def splitlinesAux : List Char → List Char → List (List Char)
  | [], acc => if acc.isEmpty then [] else [acc.reverse]
  | '\r' :: '\n' :: rest, acc => acc.reverse :: splitlinesAux rest []
  | '\r' :: rest, acc => acc.reverse :: splitlinesAux rest []
  | '\n' :: rest, acc => acc.reverse :: splitlinesAux rest []
  | c :: rest, acc => splitlinesAux rest (c :: acc)

def splitlines (l : List Char) : List (List Char) := splitlinesAux l []

/-- A leading run of asterisks, `\**` in the label regexes.  It can never
backtrack into the following literal letter, so it always consumes the whole
run. -/
def dropStars (l : List Char) : List Char := l.dropWhile (· == '*')

/-- Case-insensitive removal of the literal `lbl` at the front of a string
(ASCII case, which covers the labels involved); `none` when the string does
not start with it. -/
def ciDropLabel : List Char → List Char → Option (List Char)
  | [], rest => some rest
  | _ :: _, [] => none
  | p :: ps, c :: cs =>
    if p.toLower == c.toLower then ciDropLabel ps cs else none

/-- The common tail `\**\s*(.+)` of the three label regexes, with Python's
greedy backtracking made explicit: a maximal star run, then a maximal
whitespace run, then a non-empty capture of the rest of the line; when that
leaves nothing, the regex gives back one whitespace character, or failing
that reduces the star run to leave a single `*`. -/
def regexTail (r : List Char) : Option (List Char) :=
  let r1 := dropStars r
  let r2 := r1.dropWhile isPyWs
  if r2.isEmpty then
    if r1.isEmpty then
      if r.isEmpty then none else some ['*']
    else some (r1.drop (r1.length - 1))
  else some r2

/-- `re.match(r'\**Host:\**\s*(.+)', line, re.IGNORECASE)` (line 65),
returning group 1. -/
def matchHost (line : List Char) : Option (List Char) :=
  match ciDropLabel "Host:".data (dropStars line) with
  | some rest => regexTail rest
  | none => none

/-- `re.match(r'\**Co-host:\**\s*(.+)', line, re.IGNORECASE)` (line 72),
returning group 1. -/
def matchCohost (line : List Char) : Option (List Char) :=
  match ciDropLabel "Co-host:".data (dropStars line) with
  | some rest => regexTail rest
  | none => none

/-- `re.match(r'\**(Guest Presenter|Speaker):\**\s*(.+)', line,
re.IGNORECASE)` (line 79), returning group 2; the alternation tries
`Guest Presenter` first, and the two branches can never both start a match. -/
def matchSpeaker (line : List Char) : Option (List Char) :=
  match ciDropLabel "Guest Presenter:".data (dropStars line) with
  | some rest => regexTail rest
  | none =>
    match ciDropLabel "Speaker:".data (dropStars line) with
    | some rest => regexTail rest
    | none => none

/-- `re.sub(r'[*_~\x60]+', '', s)`: deleting every run of emphasis markers
(star, underscore, tilde, backtick) deletes exactly the individual marker
characters. -/
def removeEmphasis (l : List Char) : List Char :=
  l.filter (fun c => !(c == '*' || c == '_' || c == '~' || c == Char.ofNat 0x60))

/-- `re.sub(r'\[([^\]]+)\]\([^)]+\)', r'\1', s)`: replace each markdown link
`[label](url)` by `label`, scanning left to right; a replacement is not
rescanned.  The fuel (the input length) bounds the scan. -/
def subLinksF : Nat → List Char → List Char
  | 0, l => l
  | _ + 1, [] => []
  | fuel + 1, '[' :: rest =>
    let label := rest.takeWhile (· ≠ ']')
    match rest.drop label.length with
    | ']' :: '(' :: r2 =>
      if label.isEmpty then '[' :: subLinksF fuel rest
      else
        let url := r2.takeWhile (· ≠ ')')
        match r2.drop url.length with
        | ')' :: r4 =>
          if url.isEmpty then '[' :: subLinksF fuel rest
          else label ++ subLinksF fuel r4
        | _ => '[' :: subLinksF fuel rest
    | _ => '[' :: subLinksF fuel rest
  | fuel + 1, c :: rest => c :: subLinksF fuel rest

def subLinks (l : List Char) : List Char := subLinksF l.length l

/-- Embeds `clean_name` (lines 45-51): strip emphasis runs, trim, reduce
markdown links to their label, and keep only the (trimmed) part before a
first pipe character. -/
def clean_name (s : List Char) : List Char :=
  let s1 := removeEmphasis s
  let s2 := stripChars s1
  let s3 := subLinks s2
  if s3.contains '|' then stripChars (s3.takeWhile (· ≠ '|')) else s3

/-- The category a description line can contribute to. -/
inductive Bucket where
  | host
  | cohost
  | speaker
deriving DecidableEq, Repr

/-- The per-line classification of the extractor loop (lines 62-84): strip
the line, then try the host, co-host and speaker patterns in that order; the
first match wins (the source `continue`s) and yields the raw captured text. -/
def classifyLine (raw : List Char) : Option (Bucket × List Char) :=
  match matchHost (stripChars raw) with
  | some cap => some (.host, cap)
  | none =>
    match matchCohost (stripChars raw) with
    | some cap => some (.cohost, cap)
    | none =>
      match matchSpeaker (stripChars raw) with
      | some cap => some (.speaker, cap)
      | none => none

/-- The accumulation over the lines: each captured name is cleaned and, when
non-empty, appended to its bucket, preserving line order. -/
def collectLines : List (List Char) →
    List (List Char) × List (List Char) × List (List Char)
  | [] => ([], [], [])
  | l :: ls =>
    let rest := collectLines ls
    match classifyLine l with
    | some (.host, cap) =>
      let n := clean_name cap
      if n.isEmpty then rest else (n :: rest.1, rest.2.1, rest.2.2)
    | some (.cohost, cap) =>
      let n := clean_name cap
      if n.isEmpty then rest else (rest.1, n :: rest.2.1, rest.2.2)
    | some (.speaker, cap) =>
      let n := clean_name cap
      if n.isEmpty then rest else (rest.1, rest.2.1, n :: rest.2.2)
    | none => rest

/-- The collection phase of `get_hosts_and_speakers` (lines 59-84): remove
every literal backslash, split into lines, classify each line. -/
def collectNames (text : List Char) :
    List (List Char) × List (List Char) × List (List Char) :=
  collectLines (splitlines (text.filter (· ≠ '\\')))

/-- `', '.join(...)` on the character-list representation. -/
def joinComma (names : List (List Char)) : List Char :=
  List.intercalate ", ".data names

/-- Embeds `get_hosts_and_speakers` (lines 54-96). -/
def get_hosts_and_speakers (event_desc : String) : String × String :=
  let buckets := collectNames event_desc.data
  let hosts := buckets.1
  let cohosts := buckets.2.1
  let speakers := buckets.2.2
  let speaker := joinComma speakers
  let host :=
    if !hosts.isEmpty && !cohosts.isEmpty then
      joinComma hosts ++ " and ".data ++ joinComma cohosts
    else if !cohosts.isEmpty && hosts.isEmpty then
      joinComma cohosts
    else
      joinComma hosts
  (⟨host⟩, ⟨speaker⟩)

/-- Modelled from the spec's words (section 4.2, output composition): host is
the comma-space-joined hosts, unless both hosts and cohosts are non-empty, in
which case it is "{joined hosts} and {joined cohosts}"; if only cohosts are
present, the joined cohosts. -/
def specComposeHost (hosts cohosts : List (List Char)) : List Char :=
  if hosts ≠ [] ∧ cohosts ≠ [] then
    joinComma hosts ++ " and ".data ++ joinComma cohosts
  else if hosts = [] ∧ cohosts ≠ [] then
    joinComma cohosts
  else
    joinComma hosts

lemma compose_eq_spec (hs cs : List (List Char)) :
    (if !hs.isEmpty && !cs.isEmpty then
       joinComma hs ++ " and ".data ++ joinComma cs
     else if !cs.isEmpty && hs.isEmpty then
       joinComma cs
     else joinComma hs) = specComposeHost hs cs := by
  cases hs <;> cases cs <;> simp [specComposeHost]

-- ===================== Extractor claims C3, C6 =====================

/-- C3: for every description, the extractor's outputs are composed exactly
as the spec states: speaker is the comma-space-joined speakers in insertion
order, and host follows the hosts/cohosts "and" rule; in particular the
spec's three-line example yields host "Alice and Bob" and speaker "Carol". -/
theorem extractor_output_composition :
    (∀ desc : String,
      get_hosts_and_speakers desc
        = (⟨specComposeHost (collectNames desc.data).1 (collectNames desc.data).2.1⟩,
           ⟨joinComma (collectNames desc.data).2.2⟩)) ∧
    get_hosts_and_speakers "Host: Alice\nCo-host: Bob\nSpeaker: Carol"
      = ("Alice and Bob", "Carol") := by
  constructor
  · intro desc
    simp only [get_hosts_and_speakers]
    rw [compose_eq_spec]
  · rfl

-- Helper lemmas about the label patterns for C6.

/-- A run of `n` asterisks. -/
def stars (n : Nat) : List Char := List.replicate n '*'

lemma dropStars_stars_append (a : Nat) (l : List Char) :
    dropStars (stars a ++ l) = dropStars l := by
  induction a with
  | zero => rfl
  | succ k ih => exact ih

lemma regexTail_stars_space (b : Nat) (nm : List Char) (h0 : nm ≠ [])
    (hl : nm.dropWhile isPyWs = nm) :
    regexTail (stars b ++ ' ' :: nm) = some nm := by
  obtain ⟨x, xs, rfl⟩ : ∃ x xs, nm = x :: xs := by
    cases nm with
    | nil => exact absurd rfl h0
    | cons x xs => exact ⟨x, xs, rfl⟩
  have h1 : dropStars (stars b ++ ' ' :: x :: xs) = ' ' :: x :: xs := by
    rw [dropStars_stars_append]
    rfl
  have h2 : (' ' :: x :: xs).dropWhile isPyWs = x :: xs := by
    rw [List.dropWhile_cons]
    simp only [show isPyWs ' ' = true from rfl, if_true]
    exact hl
  simp only [regexTail, h1, h2, List.isEmpty_cons, Bool.false_eq_true,
    if_false]

lemma stripChars_fixed (a : Nat) (c : Char) (mid nm : List Char)
    (hc : isPyWs c = false) (h0 : nm ≠ [])
    (hr : nm.reverse.dropWhile isPyWs = nm.reverse) :
    stripChars (stars a ++ c :: (mid ++ ' ' :: nm))
      = stars a ++ c :: (mid ++ ' ' :: nm) := by
  have h1 : (stars a ++ c :: (mid ++ ' ' :: nm)).dropWhile isPyWs
      = stars a ++ c :: (mid ++ ' ' :: nm) := by
    cases a with
    | zero =>
      simp only [stars, List.replicate, List.nil_append, List.dropWhile_cons,
        hc, Bool.false_eq_true, if_false]
    | succ k =>
      simp only [stars, List.replicate_succ, List.cons_append,
        List.dropWhile_cons, show isPyWs '*' = false from rfl,
        Bool.false_eq_true, if_false]
  have h2 : ((stars a ++ c :: (mid ++ ' ' :: nm)).reverse).dropWhile isPyWs
      = (stars a ++ c :: (mid ++ ' ' :: nm)).reverse := by
    obtain ⟨d, t, hdt⟩ : ∃ d t, nm.reverse = d :: t := by
      cases hnm : nm.reverse with
      | nil =>
        have : nm = [] := by
          have := congrArg List.reverse hnm
          simpa using this
        exact absurd this h0
      | cons d t => exact ⟨d, t, rfl⟩
    have hd : isPyWs d = false := by
      rw [hdt] at hr
      have h' := List.dropWhile_eq_self_iff.mp hr (by simp)
      simpa using h'
    have hshape : (stars a ++ c :: (mid ++ ' ' :: nm)).reverse
        = d :: (t ++ ' ' :: (mid.reverse ++ c :: (stars a).reverse)) := by
      simp [List.reverse_append, hdt]
    rw [hshape, List.dropWhile_cons, hd]
    simp
  unfold stripChars
  rw [h1, h2, List.reverse_reverse]

lemma matchHost_stars (a b : Nat) (nm : List Char) (h0 : nm ≠ [])
    (hl : nm.dropWhile isPyWs = nm) :
    matchHost (stars a ++ ("Host:".data ++ (stars b ++ ' ' :: nm)))
      = some nm := by
  have h1 : dropStars (stars a ++ ("Host:".data ++ (stars b ++ ' ' :: nm)))
      = "Host:".data ++ (stars b ++ ' ' :: nm) := by
    rw [dropStars_stars_append]
    rfl
  simp only [matchHost, h1]
  have h2 : ciDropLabel "Host:".data ("Host:".data ++ (stars b ++ ' ' :: nm))
      = some (stars b ++ ' ' :: nm) := rfl
  rw [h2]
  exact regexTail_stars_space b nm h0 hl

lemma matchHost_stars_none (a : Nat) (r : List Char)
    (h : ciDropLabel "Host:".data (dropStars r) = none) :
    matchHost (stars a ++ r) = none := by
  simp only [matchHost, dropStars_stars_append, h]

lemma matchCohost_stars_none (a : Nat) (r : List Char)
    (h : ciDropLabel "Co-host:".data (dropStars r) = none) :
    matchCohost (stars a ++ r) = none := by
  simp only [matchCohost, dropStars_stars_append, h]

lemma matchCohost_stars (a b : Nat) (nm : List Char) (h0 : nm ≠ [])
    (hl : nm.dropWhile isPyWs = nm) :
    matchCohost (stars a ++ ("co-HOST:".data ++ (stars b ++ ' ' :: nm)))
      = some nm := by
  have h1 : dropStars (stars a ++ ("co-HOST:".data ++ (stars b ++ ' ' :: nm)))
      = "co-HOST:".data ++ (stars b ++ ' ' :: nm) := by
    rw [dropStars_stars_append]
    rfl
  simp only [matchCohost, h1]
  have h2 : ciDropLabel "Co-host:".data
      ("co-HOST:".data ++ (stars b ++ ' ' :: nm))
      = some (stars b ++ ' ' :: nm) := rfl
  rw [h2]
  exact regexTail_stars_space b nm h0 hl

lemma matchSpeaker_stars_guest (a b : Nat) (nm : List Char) (h0 : nm ≠ [])
    (hl : nm.dropWhile isPyWs = nm) :
    matchSpeaker (stars a ++ ("Guest Presenter:".data ++ (stars b ++ ' ' :: nm)))
      = some nm := by
  have h1 : dropStars
      (stars a ++ ("Guest Presenter:".data ++ (stars b ++ ' ' :: nm)))
      = "Guest Presenter:".data ++ (stars b ++ ' ' :: nm) := by
    rw [dropStars_stars_append]
    rfl
  simp only [matchSpeaker, h1]
  have h2 : ciDropLabel "Guest Presenter:".data
      ("Guest Presenter:".data ++ (stars b ++ ' ' :: nm))
      = some (stars b ++ ' ' :: nm) := rfl
  rw [h2]
  exact regexTail_stars_space b nm h0 hl

lemma matchSpeaker_stars_upper (a b : Nat) (nm : List Char) (h0 : nm ≠ [])
    (hl : nm.dropWhile isPyWs = nm) :
    matchSpeaker (stars a ++ ("SPEAKER:".data ++ (stars b ++ ' ' :: nm)))
      = some nm := by
  have h1 : dropStars (stars a ++ ("SPEAKER:".data ++ (stars b ++ ' ' :: nm)))
      = "SPEAKER:".data ++ (stars b ++ ' ' :: nm) := by
    rw [dropStars_stars_append]
    rfl
  simp only [matchSpeaker, h1]
  have hg : ciDropLabel "Guest Presenter:".data
      ("SPEAKER:".data ++ (stars b ++ ' ' :: nm)) = none := rfl
  have hs : ciDropLabel "Speaker:".data
      ("SPEAKER:".data ++ (stars b ++ ' ' :: nm))
      = some (stars b ++ ' ' :: nm) := rfl
  rw [hg, hs]
  exact regexTail_stars_space b nm h0 hl

/-- C6 counterexample: the claim says any run of `*`, `_`, `~` or backtick
emphasis around a label is allowed, but a label surrounded by underscores is
not recognized at all (the regexes allow only `\**`), while the same line
with asterisks is. -/
theorem label_emphasis_markers_cex :
    get_hosts_and_speakers "_Host:_ Alice" = ("", "") ∧
    get_hosts_and_speakers "*Host:* Alice" = ("Alice", "") :=
  ⟨rfl, rfl⟩

/-- C6 (amended): a Host:/Co-host:/Guest Presenter:/Speaker: label is
recognized case-insensitively when surrounded by runs of asterisks only
(the regexes allow `\**`, not the other emphasis markers: an
underscore-wrapped label is not recognized), and a line is classified under
at most one category, host before co-host before speaker. -/
theorem label_recognition_asterisks (a b : Nat) (nm : List Char)
    (h0 : nm ≠ []) (hl : nm.dropWhile isPyWs = nm)
    (hr : nm.reverse.dropWhile isPyWs = nm.reverse) :
    classifyLine (stars a ++ ("Host:".data ++ (stars b ++ ' ' :: nm)))
      = some (.host, nm) ∧
    classifyLine (stars a ++ ("co-HOST:".data ++ (stars b ++ ' ' :: nm)))
      = some (.cohost, nm) ∧
    classifyLine (stars a ++ ("Guest Presenter:".data ++ (stars b ++ ' ' :: nm)))
      = some (.speaker, nm) ∧
    classifyLine (stars a ++ ("SPEAKER:".data ++ (stars b ++ ' ' :: nm)))
      = some (.speaker, nm) ∧
    classifyLine ("_Host:_ ".data ++ nm) = none := by
  refine ⟨?_, ?_, ?_, ?_, ?_⟩
  · have hstrip := stripChars_fixed a 'H' ("ost:".data ++ stars b) nm rfl h0 hr
    simp only [classifyLine]
    rw [show stripChars (stars a ++ ("Host:".data ++ (stars b ++ ' ' :: nm)))
        = stars a ++ ("Host:".data ++ (stars b ++ ' ' :: nm)) from hstrip]
    rw [matchHost_stars a b nm h0 hl]
  · have hstrip := stripChars_fixed a 'c' ("o-HOST:".data ++ stars b) nm rfl h0 hr
    simp only [classifyLine]
    rw [show stripChars (stars a ++ ("co-HOST:".data ++ (stars b ++ ' ' :: nm)))
        = stars a ++ ("co-HOST:".data ++ (stars b ++ ' ' :: nm)) from hstrip]
    rw [matchHost_stars_none a ("co-HOST:".data ++ (stars b ++ ' ' :: nm)) rfl,
      matchCohost_stars a b nm h0 hl]
  · have hstrip := stripChars_fixed a 'G' ("uest Presenter:".data ++ stars b) nm
      rfl h0 hr
    simp only [classifyLine]
    rw [show stripChars
          (stars a ++ ("Guest Presenter:".data ++ (stars b ++ ' ' :: nm)))
        = stars a ++ ("Guest Presenter:".data ++ (stars b ++ ' ' :: nm))
        from hstrip]
    rw [matchHost_stars_none a
        ("Guest Presenter:".data ++ (stars b ++ ' ' :: nm)) rfl,
      matchCohost_stars_none a
        ("Guest Presenter:".data ++ (stars b ++ ' ' :: nm)) rfl,
      matchSpeaker_stars_guest a b nm h0 hl]
  · have hstrip := stripChars_fixed a 'S' ("PEAKER:".data ++ stars b) nm rfl h0 hr
    simp only [classifyLine]
    rw [show stripChars (stars a ++ ("SPEAKER:".data ++ (stars b ++ ' ' :: nm)))
        = stars a ++ ("SPEAKER:".data ++ (stars b ++ ' ' :: nm)) from hstrip]
    rw [matchHost_stars_none a ("SPEAKER:".data ++ (stars b ++ ' ' :: nm)) rfl,
      matchCohost_stars_none a ("SPEAKER:".data ++ (stars b ++ ' ' :: nm)) rfl,
      matchSpeaker_stars_upper a b nm h0 hl]
  · have hstrip := stripChars_fixed 0 '_' "Host:_".data nm rfl h0 hr
    simp only [classifyLine]
    rw [show stripChars ("_Host:_ ".data ++ nm) = "_Host:_ ".data ++ nm
        from hstrip]
    rfl

theorem label_recognition_asterisks_witness :
    "Alice".data ≠ [] ∧
    "Alice".data.dropWhile isPyWs = "Alice".data ∧
    "Alice".data.reverse.dropWhile isPyWs = "Alice".data.reverse ∧
    (classifyLine (stars 1 ++ ("Host:".data ++ (stars 2 ++ ' ' :: "Alice".data)))
        = some (.host, "Alice".data) ∧
      classifyLine (stars 1 ++ ("co-HOST:".data ++ (stars 2 ++ ' ' :: "Alice".data)))
        = some (.cohost, "Alice".data) ∧
      classifyLine
          (stars 1 ++ ("Guest Presenter:".data ++ (stars 2 ++ ' ' :: "Alice".data)))
        = some (.speaker, "Alice".data) ∧
      classifyLine (stars 1 ++ ("SPEAKER:".data ++ (stars 2 ++ ' ' :: "Alice".data)))
        = some (.speaker, "Alice".data) ∧
      classifyLine ("_Host:_ ".data ++ "Alice".data) = none) :=
  ⟨by decide, by decide, by decide,
    label_recognition_asterisks 1 2 "Alice".data (by decide) (by decide)
      (by decide)⟩

-- ============ Sanitizer and description formatter (lines 98-123) ============

/-- Modelled from the Python standard library: `unicodedata.normalize('NFKD',
text)` (line 102) as a character-wise decomposition, specified on the
characters that occur in this development.  ASCII characters and the
waving-hand emoji are NFKD-invariant; `é` (U+00E9) decomposes to `e` plus
the combining acute accent (U+0301), `â` (U+00E2) to `a` plus the combining
circumflex (U+0302). -/
def nfkdChar (c : Char) : List Char :=
  if c = Char.ofNat 0xE9 then ['e', Char.ofNat 0x301]
  else if c = Char.ofNat 0xE2 then ['a', Char.ofNat 0x302]
  else [c]

/-- The literal allow-list of `clean_description` (lines 103-109): ASCII
letters, digits, the four whitespace characters, the punctuation set, and —
as the source file's bytes actually decode — the three characters U+00E2,
U+20AC, U+2122 (a mojibake rendering of a right single quote). -/
def allowedChars : List Char :=
  ("abcdefghijklmnopqrstuvwxyzABCDEFGHIJKLMNOPQRSTUVWXYZ0123456789"
      ++ " \t\n\r" ++ ".,;:!?'\"-()").data
    ++ [Char.ofNat 0xE2, Char.ofNat 0x20AC, Char.ofNat 0x2122]

/-- Embeds `clean_description` (lines 99-111): replace markdown links by
their label, delete emphasis-marker runs, NFKD-normalize, then keep only the
allow-listed characters (everything else is dropped, not replaced). -/
def clean_description (text : String) : String :=
  let t1 := subLinks text.data
  let t2 := removeEmphasis t1
  let t3 := t2.flatMap nfkdChar
  ⟨t3.filter (fun c => allowedChars.contains c)⟩

/-- Python `str.startswith` on character lists. -/
def leadsWith : List Char → List Char → Bool
  | [], _ => true
  | _ :: _, [] => false
  | p :: ps, c :: cs => p == c && leadsWith ps cs

/-- `text.split(sep, 1)[0]` for a non-empty separator: the part of the text
before the first occurrence of `sep`, or the whole text when absent. -/
def beforeFirst (sep : List Char) : List Char → List Char
  | [] => []
  | c :: rest =>
    if leadsWith sep (c :: rest) then [] else c :: beforeFirst sep rest

/-- Embeds `get_formatted_event_description` (lines 114-123).  The
`or ""` on line 115 is the identity on strings, and the debug `print` on
line 117 is I/O only.  When the cleaned, stripped text starts with the
literal "Women Coding Community", that prefix is removed and the remainder
left-stripped; otherwise the text before the first
"About Women Coding Community" is returned, stripped. -/
def get_formatted_event_description (event_desc : String) : String :=
  let full_description := stripChars (clean_description event_desc).data
  let description := beforeFirst "About Women Coding Community".data full_description
  let pfx := "Women Coding Community".data
  if leadsWith pfx (stripChars full_description) then
    ⟨lstripChars ((stripChars full_description).drop pfx.length)⟩
  else
    ⟨stripChars description⟩

-- ===================== Formatter and sanitizer claims C4, C5 ==============

def c4Input : String := "A great talk today. About Women Coding Community is a nonprofit."

/-- C4 counterexample: on the spec's example the formatter does NOT return
"A great talk today. " with the trailing space — the final `strip()` on
line 123 removes it. -/
theorem format_truncation_cex :
    get_formatted_event_description c4Input ≠ "A great talk today. " ∧
    get_formatted_event_description c4Input = "A great talk today." := by
  constructor
  · decide
  · rfl

/-- C4 (amended): the formatter truncates the example at the first
occurrence of "About Women Coding Community" and returns the text before the
marker with surrounding whitespace stripped, "A great talk today." — the
marker's leading space is removed by the final trim. -/
theorem format_truncation_amended :
    get_formatted_event_description c4Input = "A great talk today." := rfl

/-- The waving-hand emoji U+1F44B. -/
def waveChar : Char := Char.ofNat 0x1F44B

/-- Latin small letter e with acute, U+00E9 (precomposed). -/
def eAcuteChar : Char := Char.ofNat 0xE9

def c5Input : String :=
  "Hello *world* " ++ ⟨[waveChar]⟩ ++ " caf" ++ ⟨[eAcuteChar]⟩

/-- C5 counterexample: sanitizing "Hello *world* 👋 café" does not yield
"Hello world caf": the ASCII base letter `e` of the decomposed `é` passes
the allow-list (only the combining accent is dropped), and the dropped emoji
leaves its two surrounding spaces adjacent. -/
theorem sanitize_example_cex :
    clean_description c5Input ≠ "Hello world caf" ∧
    clean_description c5Input = "Hello world  cafe" := by
  constructor
  · decide
  · rfl

/-- C5 (amended): sanitize("Hello *world* 👋 café") strips the emphasis
markers, drops the emoji (leaving the two spaces around it adjacent) and the
combining accent of the decomposed `é`, keeping its base letter:
"Hello world  cafe". -/
theorem sanitize_example_amended :
    clean_description c5Input = "Hello world  cafe" := rfl

-- ============== Image lookup and builder image (lines 126-140, 197) ========

/-- A fetched, parsed event page as `get_event_image_url` inspects it:
whether `soup.find("meta", property="og:image")` finds a tag and, if so, the
value of its `content` attribute (`None` when absent); likewise for the
first `img` tag and its `src` attribute. -/
structure HtmlPage where
  ogImage : Option (Option String)
  imgTag : Option (Option String)
deriving DecidableEq, Repr

/-- Embeds `get_event_image_url` (lines 126-140) after the HTTP fetch and
parse.  A found tag is always truthy; `.get` of a missing attribute yields
`None`.  When neither tag exists, the local `image_url` is never assigned
and the final `return image_url` raises `UnboundLocalError`. -/
def get_event_image_url (page : HtmlPage) : Except PyError (Option String) :=
  match page.ogImage with
  | some content => .ok content
  | none =>
    match page.imgTag with
    | some src => .ok src
    | none => .error .unboundLocalError

/-- C7: the lookup does fall back to the first image tag when the OG meta
tag is missing, but on a page with neither tag it raises
`UnboundLocalError` instead of returning an empty value — contradicting the
spec's "must not raise on a missing tag". -/
theorem image_lookup_unbound_local :
    get_event_image_url ⟨none, some (some "x.jpg")⟩ = .ok (some "x.jpg") ∧
    get_event_image_url ⟨some (some "og.jpg"), none⟩ = .ok (some "og.jpg") ∧
    get_event_image_url ⟨none, none⟩ = .error .unboundLocalError :=
  ⟨rfl, rfl, rfl⟩

/-- The `Image` pydantic model's field defaults (lines 21-23); a default
applies only when the field is not passed at construction. -/
structure ImageRec where
  path : String
  alt : String
deriving DecidableEq, Repr

def imageDefaults : ImageRec :=
  ⟨"/assets/images/events/default.jpg", "Square poster of event"⟩

/-- The image assembly of the event builder (line 197):
`Image(path=image_url, alt="WCC Meetup event image")`.  `path` is always
passed explicitly, so the model default is never used and nothing is
substituted for an empty lookup result. -/
def buildEventImage (image_url : String) : ImageRec :=
  ⟨image_url, "WCC Meetup event image"⟩

/-- C8: when the lookup yields an empty string (e.g. an OG meta tag whose
content is empty), the builder stores it verbatim: the assembled image path
is the empty string, not the default fallback path — contradicting the
claim that image.path is never empty. -/
theorem image_path_no_fallback :
    get_event_image_url ⟨some (some ""), none⟩ = .ok (some "") ∧
    (buildEventImage "").path = "" ∧
    (buildEventImage "").path ≠ imageDefaults.path := by
  refine ⟨rfl, rfl, ?_⟩
  decide

-- ================= Persistence write-back (lines 239-249) ==================

/-- A record as the JSON writer sees it: `serializable` says whether
`json.dump` can encode it (a `TypeError` is raised at the first one that
cannot). -/
structure StoreItem where
  id : Nat
  serializable : Bool
deriving DecidableEq, Repr

/-- Models the incremental `json.dump(existing, file)` (line 246): the items
are streamed to the already-truncated file in order; reaching a
non-serializable item raises `TypeError`, leaving the previously streamed
items on disk.  Returns the final file contents and the raised error, if
any. -/
def dumpStream : List StoreItem → List StoreItem × Option PyError
  | [] => ([], none)
  | i :: is =>
    if i.serializable then
      let rest := dumpStream is
      (i :: rest.1, rest.2)
    else ([], some .typeError)

/-- Embeds `append_events_to_json_file` (lines 239-249): load the existing
list, extend it with the new data, open the file with mode "w" (truncating
it), then stream the JSON dump; an `IOError`/`TypeError` is logged and
re-raised.  The result is the final file contents together with the
propagated error, if any. -/
def append_events_to_json_file (fileContents data : List StoreItem) :
    List StoreItem × Option PyError :=
  dumpStream (fileContents ++ data)

def goodItemA : StoreItem := ⟨0, true⟩
def goodItemB : StoreItem := ⟨1, true⟩
def badItem : StoreItem := ⟨2, false⟩

/-- C9: the write-back is not all-or-nothing.  With one existing record and
a batch whose second record is not JSON-serializable, the dump fails midway:
the error is re-raised, but the file is left holding a partial state — the
existing record plus the first new one — which is neither the previous
contents nor the full combined list. -/
theorem store_write_partial_state :
    append_events_to_json_file [goodItemA] [goodItemB, badItem]
      = ([goodItemA, goodItemB], some .typeError) ∧
    [goodItemA, goodItemB] ≠ [goodItemA] ∧
    [goodItemA, goodItemB] ≠ [goodItemA] ++ [goodItemB, badItem] := by
  refine ⟨rfl, ?_, ?_⟩ <;> decide

end MeetupImport

